import Mathlib

/-!
Verification of the two-tier refresh-ahead cache (RefreshCache, package rcache).

The Go source is embedded shallowly: machine state (the in-process item map,
the shared redis store, and the presence of a redis client) is passed
explicitly, wall-clock instants are integers (nanoseconds, as in Go
time.Time), and the user-supplied recompute function is an oracle recording
how the race between the goroutine and the refresh timer resolved.  Loader
invocations are made observable as an event list so that claims about when
the recompute function runs can be stated.
-/

namespace RCache

/-- Go time.Second expressed in nanoseconds. -/
def second : Int := 1000000000

/-- Go time.Hour expressed in nanoseconds. -/
def hour : Int := 3600 * second

/-- One cached entry; mirrors the Go struct Item[T] with fields Value,
ExpiresAt, RecheckAt. -/
structure Item (T : Type) where
  value : T
  expiresAt : Int
  recheckAt : Int
deriving DecidableEq

/-- Outcome of a failing json.Unmarshal into a prefilled Item: the fields
that were successfully parsed before the failure (Go sets struct fields as
it goes, so a later error leaves earlier fields assigned). -/
structure PartialItem (T : Type) where
  value? : Option T
  expiresAt? : Option Int
  recheckAt? : Option Int
deriving DecidableEq

/-- Contents of one redis record as seen through the decode step of
getRedis: bytes that unmarshal cleanly to an item, bytes that fail to
unmarshal (with the partial field assignments), or a record whose bytes
cannot be read at all (the lastData.Bytes() error branch). -/
inductive RemoteCell (T : Type) where
  | ok (item : Item T)
  | failDec (p : PartialItem T)
  | unreadable
deriving DecidableEq

/-- A stored redis record together with the server-side TTL that the
write carried (redisClient.Set's third argument). -/
structure RedisRec (T : Type) where
  cell : RemoteCell T
  ttl : Int
deriving DecidableEq

/-- State of one RefreshCache instance plus the shared redis store:
items is the in-process map (assoc list), redis the remote store keyed by
fingerprint, hasClient whether redisClient is non-nil. -/
structure St (T : Type) where
  items : List (String × Item T)
  redis : List (String × RedisRec T)
  hasClient : Bool
deriving DecidableEq

/-- Configuration fields of RefreshCache: RedisTimeout, RefreshTimeout,
Recheck, Expires, topic. -/
structure Cfg where
  redisTimeout : Int
  refreshTimeout : Int
  recheck : Int
  expires : Int
  topic : String
deriving DecidableEq

/-- Constructor NewRefreshCache.  Faithful to the source: the local
variable topic is assigned the literal "test"; the keyPfx argument
(named keyPrefix in the source) is never read. -/
def NewRefreshCache (keyPfx : String) : Cfg :=
  { recheck := hour
    expires := hour
    refreshTimeout := second
    redisTimeout := second
    topic := "test" }

/-- Fingerprint of a key in the remote tier; mirrors
fmt.Sprintf("ecache:%s:%s", rc.topic, key). -/
def redisKey (cfg : Cfg) (key : String) : String :=
  "ecache:" ++ cfg.topic ++ ":" ++ key

/-- Lookup in an assoc list, first match wins (Go map read). -/
def assocGet {β : Type _} (k : String) : List (String × β) → Option β
  | [] => none
  | (k', v) :: rest => if k' = k then some v else assocGet k rest

/-- Replace-or-append in an assoc list (Go map assignment). -/
def assocSet {β : Type _} (k : String) (v : β) : List (String × β) → List (String × β)
  | [] => [(k, v)]
  | (k', v') :: rest => if k' = k then (k, v) :: rest else (k', v') :: assocSet k v rest

/-- Go zero value of Item[T]: zero payload and zero timestamps. -/
def zeroItem (T : Type) [Inhabited T] : Item T :=
  { value := default, expiresAt := 0, recheckAt := 0 }

/-- getLocal: read the in-process map; a present row whose ExpiresAt is
before now is reported absent (returned alongside false, as in the
source). -/
def getLocal {T : Type} [Inhabited T] (now : Int) (st : St T) (key : String) : Item T × Bool :=
  match assocGet key st.items with
  | none => (zeroItem T, false)
  | some a => if a.expiresAt < now then (a, false) else (a, true)

/-- Apply the field assignments of a failing unmarshal on top of the
prefilled item. -/
def applyPartial {T : Type} (pre : Item T) (p : PartialItem T) : Item T :=
  { value := p.value?.getD pre.value
    expiresAt := p.expiresAt?.getD pre.expiresAt
    recheckAt := p.recheckAt?.getD pre.recheckAt }

/-- getRedis: read the remote tier.  Mirrors the source exactly,
including the branch where json.Unmarshal fails: the error is only
logged, and the item prefilled with now (ExpiresAt = RecheckAt = now)
plus whatever fields did parse is still compared against the clock and
can be returned as a hit. -/
def getRedis {T : Type} [Inhabited T] (now : Int) (cfg : Cfg) (st : St T) (key : String) :
    Item T × Bool :=
  if st.hasClient = false then (zeroItem T, false)
  else
    match assocGet (redisKey cfg key) st.redis with
    | none => (zeroItem T, false)
    | some r =>
      match r.cell with
      | .unreadable => (zeroItem T, false)
      | .ok item => if item.expiresAt < now then (item, false) else (item, true)
      | .failDec p =>
        let ld := applyPartial { value := default, expiresAt := now, recheckAt := now } p
        if ld.expiresAt < now then (ld, false) else (ld, true)

/-- setLocal: unconditional replace in the in-process map. -/
def setLocal {T : Type} (st : St T) (key : String) (item : Item T) : St T :=
  { st with items := assocSet key item st.items }

/-- setRedis: marshal the item and SET it under the fingerprint with a
server-side TTL of rc.Expires; a nil client writes nothing.  Set errors
are logged and swallowed in the source, so the model records the write
unconditionally when a client exists. -/
def setRedis {T : Type} (cfg : Cfg) (st : St T) (key : String) (item : Item T) : St T :=
  if st.hasClient then
    { st with redis := assocSet (redisKey cfg key) { cell := .ok item, ttl := cfg.expires } st.redis }
  else st

/-- setTTL: build the entry from one reading of the clock
(RecheckAt = now + ttl1, ExpiresAt = now + ttl2), then setLocal and
setRedis. -/
def setTTL {T : Type} (now : Int) (cfg : Cfg) (st : St T) (key : String) (value : T)
    (ttl1 ttl2 : Int) : St T :=
  let item : Item T := { value := value, expiresAt := now + ttl2, recheckAt := now + ttl1 }
  setRedis cfg (setLocal st key item) key item

/-- Public SetTTL: the source wrapper always returns a nil error. -/
def SetTTL {T : Type} (now : Int) (cfg : Cfg) (st : St T) (key : String) (value : T)
    (ttl1 ttl2 : Int) : Option String × St T :=
  (none, setTTL now cfg st key value ttl1 ttl2)

/-- check (the unexported read path): local tier first; on a local miss
consult redis, and on a redis hit warm the local tier with the entry
before returning its value. -/
def check {T : Type} [Inhabited T] (now : Int) (cfg : Cfg) (st : St T) (key : String) :
    (T × Bool) × St T :=
  let la := getLocal now st key
  if la.2 then ((la.1.value, true), st)
  else
    let rb := getRedis now cfg st key
    if rb.2 then ((rb.1.value, true), setLocal st key rb.1)
    else ((rb.1.value, false), st)

/-- Public Check: check under the instance mutex.  The third component
lists the keys on which the recompute function was invoked during the
call; Check never invokes it. -/
def Check {T : Type} [Inhabited T] (now : Int) (cfg : Cfg) (st : St T) (key : String) :
    (T × Bool) × St T × List String :=
  ((check now cfg st key).1, (check now cfg st key).2, [])

/-- Resolution of the select between the recompute goroutine and
time.After(rc.RefreshTimeout): either the timer fired first, or the
goroutine delivered (value, err). -/
inductive FnOutcome (T : Type) where
  | timeout
  | done (value : T) (err : Option String)
deriving DecidableEq

/-- refresh: spawn the recompute goroutine (one loader event is emitted
in every case), await it against the timer; on success publish via
setTTL with windows rc.Recheck and rc.Expires and return the value with
a nil error. -/
def refresh {T : Type} [Inhabited T] (now : Int) (cfg : Cfg) (st : St T) (key : String)
    (fn : FnOutcome T) : (T × Option String) × St T × List String :=
  match fn with
  | .timeout => ((default, some "timed out"), st, [key])
  | .done v (some e) => ((v, some e), st, [key])
  | .done v none => ((v, none), setTTL now cfg st key v cfg.recheck cfg.expires, [key])

/-- Public Refresh: refresh under the instance mutex. -/
def Refresh {T : Type} [Inhabited T] (now : Int) (cfg : Cfg) (st : St T) (key : String)
    (fn : FnOutcome T) : (T × Option String) × St T × List String :=
  refresh now cfg st key fn

/-- Get: check, and on a miss refresh; a refresh error is swallowed and
the pair produced by check (value of the tier-chain miss, false) is
returned. -/
def Get {T : Type} [Inhabited T] (now : Int) (cfg : Cfg) (st : St T) (key : String)
    (fn : FnOutcome T) : (T × Bool) × St T × List String :=
  let c := check now cfg st key
  if c.1.2 then (c.1, c.2, [])
  else
    let r := refresh now cfg c.2 key fn
    match r.1.2 with
    | none => ((r.1.1, true), r.2.1, r.2.2)
    | some _ => ((c.1.1, false), r.2.1, r.2.2)

/-- Body of the GetRecheckKeys loop over the item map: a key whose
RecheckAt is after the snapshot is skipped; otherwise redis is consulted
first, a redis hit is adopted into the map, and the key is collected
only if it is still due after adoption. -/
def grkAux {T : Type} [Inhabited T] (now : Int) (cfg : Cfg) (stR : St T) :
    List (String × Item T) → List String × List (String × Item T)
  | [] => ([], [])
  | (k, v) :: rest =>
    let r := grkAux now cfg stR rest
    if now < v.recheckAt then (r.1, (k, v) :: r.2)
    else
      match getRedis now cfg stR k with
      | (a, true) =>
        if now < a.recheckAt then (r.1, (k, a) :: r.2)
        else (k :: r.1, (k, a) :: r.2)
      | (_, false) => (k :: r.1, (k, v) :: r.2)

/-- GetRecheckKeys: snapshot the clock, scan every key of the item map,
adopt fresher redis entries, and return the keys still due for refresh. -/
def GetRecheckKeys {T : Type} [Inhabited T] (now : Int) (cfg : Cfg) (st : St T) :
    List String × St T :=
  let r := grkAux now cfg st st.items
  (r.1, { st with items := r.2 })

/-- Result of calling Start: the source calls time.NewTicker(t) and then
spawns the tick loop.  Modelled from the Go standard library contract of
time.NewTicker (library code outside this repository), which rejects a
non-positive duration by panicking; with a positive duration the loop
runs with that period. -/
inductive StartRes where
  | panicked
  | running (period : Int)
deriving DecidableEq

/-- Start: mirrors the source, whose first statement is
time.NewTicker(t). -/
def Start (t : Int) : StartRes :=
  if t ≤ 0 then .panicked else .running t

/-! Helper lemmas about assoc-list reads and writes. -/

theorem assocGet_assocSet_self {β : Type _} (k : String) (v : β) (l : List (String × β)) :
    assocGet k (assocSet k v l) = some v := by
  induction l with
  | nil => simp [assocGet, assocSet]
  | cons hd tl ih =>
    obtain ⟨k', v'⟩ := hd
    by_cases h : k' = k <;> simp [assocGet, assocSet, h, ih]

theorem assocGet_assocSet_ne {β : Type _} (q k : String) (v : β) (l : List (String × β))
    (hne : q ≠ k) : assocGet q (assocSet k v l) = assocGet q l := by
  have hkq : k ≠ q := Ne.symm hne
  induction l with
  | nil => simp [assocGet, assocSet, hkq]
  | cons hd tl ih =>
    obtain ⟨k', v'⟩ := hd
    by_cases h : k' = k
    · subst h
      simp [assocGet, assocSet, hkq]
    · simp [assocGet, assocSet, h, ih]

theorem assocGet_isSome_assocSet {β : Type _} (q k : String) (v : β) (l : List (String × β))
    (h : (assocGet q l).isSome = true) : (assocGet q (assocSet k v l)).isSome = true := by
  by_cases hq : q = k
  · subst hq; simp [assocGet_assocSet_self]
  · rwa [assocGet_assocSet_ne q k v l hq]

/-- State is unchanged by check whenever check reports a miss. -/
theorem check_miss_state {T : Type} [Inhabited T] (now : Int) (cfg : Cfg) (st : St T)
    (key : String) (h : (check now cfg st key).1.2 = false) : (check now cfg st key).2 = st := by
  unfold check at *
  dsimp only at *
  split at h
  · simp at h
  · split at h
    · simp at h
    · split <;> simp_all

/-! Concrete instances used to exercise the theorems. -/

/-- Configuration produced by the constructor (topic is always "test"). -/
def cfgT : Cfg := NewRefreshCache "w"

/-- Empty instance state with a redis client attached. -/
def stEmptyR : St Nat := { items := [], redis := [], hasClient := true }

/-- C1: on the loader path (refresh, reached from Refresh and from the
miss branch of Get), when the recompute function returns a value without
error, the cache builds an entry with recheck_at = now + Recheck and
expires_at = now + Expires from one reading of the clock, stores it
locally via setLocal and remotely via setRedis with a server-side TTL
equal to the Expires configuration, and returns the value with
success. -/
theorem refresh_success_publishes {T : Type} [Inhabited T] (now : Int) (cfg : Cfg) (st : St T)
    (key : String) (v : T) (hc : st.hasClient = true) :
    (refresh now cfg st key (.done v none)).1 = (v, none) ∧
    assocGet key (refresh now cfg st key (.done v none)).2.1.items =
      some { value := v, expiresAt := now + cfg.expires, recheckAt := now + cfg.recheck } ∧
    assocGet (redisKey cfg key) (refresh now cfg st key (.done v none)).2.1.redis =
      some { cell := .ok { value := v, expiresAt := now + cfg.expires,
                           recheckAt := now + cfg.recheck },
             ttl := cfg.expires } ∧
    (refresh now cfg st key (.done v none)).2.2 = [key] ∧
    Refresh now cfg st key (.done v none) = refresh now cfg st key (.done v none) ∧
    ((check now cfg st key).1.2 = false →
      (Get now cfg st key (.done v none)).1 = (v, true) ∧
      assocGet key (Get now cfg st key (.done v none)).2.1.items =
        some { value := v, expiresAt := now + cfg.expires, recheckAt := now + cfg.recheck }) := by
  refine ⟨rfl, ?_, ?_, rfl, rfl, ?_⟩
  · simp [refresh, setTTL, setRedis, setLocal, hc, assocGet_assocSet_self]
  · simp [refresh, setTTL, setRedis, setLocal, hc, assocGet_assocSet_self]
  · intro h
    have hst := check_miss_state now cfg st key h
    constructor
    · simp [Get, h, hst, refresh]
    · simp [Get, h, hst, refresh, setTTL, setRedis, setLocal, hc, assocGet_assocSet_self]

/-- C1 witness: the publication property evaluated on an empty state. -/
theorem refresh_success_publishes_witness :
    (refresh 5 cfgT stEmptyR "k" (.done 7 none)).1 = (7, none) ∧
    assocGet "k" (refresh 5 cfgT stEmptyR "k" (.done 7 none)).2.1.items =
      some { value := 7, expiresAt := 5 + cfgT.expires, recheckAt := 5 + cfgT.recheck } ∧
    assocGet (redisKey cfgT "k") (refresh 5 cfgT stEmptyR "k" (.done 7 none)).2.1.redis =
      some { cell := .ok { value := 7, expiresAt := 5 + cfgT.expires,
                           recheckAt := 5 + cfgT.recheck },
             ttl := cfgT.expires } ∧
    (refresh 5 cfgT stEmptyR "k" (.done 7 none)).2.2 = ["k"] ∧
    (Get 5 cfgT stEmptyR "k" (.done 7 none)).1 = (7, true) := by
  have h := refresh_success_publishes (T := Nat) 5 cfgT stEmptyR "k" 7 rfl
  exact ⟨h.1, h.2.1, h.2.2.1, h.2.2.2.1, (h.2.2.2.2.2 (by decide)).1⟩

/-! Spec-side predicates for C2, written from the words of the
specification (an unexpired entry exists in a tier) rather than from the
source, to be compared with the source-derived read path. -/

/-- An entry for the key with expires_at not in the past exists in the
local tier. -/
def specUnexpiredLocal {T : Type} (now : Int) (st : St T) (key : String) : Prop :=
  ∃ e : Item T, assocGet key st.items = some e ∧ now ≤ e.expiresAt

/-- An entry for the key with expires_at not in the past exists in the
remote tier. -/
def specUnexpiredRemote {T : Type} (now : Int) (cfg : Cfg) (st : St T) (key : String) : Prop :=
  st.hasClient = true ∧
    ∃ r : RedisRec T, assocGet (redisKey cfg key) st.redis = some r ∧
      ∃ e : Item T, r.cell = RemoteCell.ok e ∧ now ≤ e.expiresAt

/-- Every redis record decodes cleanly; this holds of every record
written by setRedis (which stores the marshalled item). -/
def wellFormed {T : Type} (st : St T) : Bool :=
  st.redis.all fun p => match p.2.cell with | .ok _ => true | _ => false

theorem wellFormed_cell_list {T : Type} (l : List (String × RedisRec T)) (q : String)
    (r : RedisRec T)
    (hw : (l.all fun p => match p.2.cell with | .ok _ => true | _ => false) = true)
    (h : assocGet q l = some r) : ∃ e, r.cell = RemoteCell.ok e := by
  induction l with
  | nil => simp [assocGet] at h
  | cons hd tl ih =>
    obtain ⟨k', v'⟩ := hd
    simp only [List.all_cons, Bool.and_eq_true] at hw
    simp only [assocGet] at h
    split at h
    · cases h
      rcases hv : r.cell with e | p | _ <;> simp_all
    · exact ih hw.2 h

theorem wellFormed_cell {T : Type} (st : St T) (q : String) (r : RedisRec T)
    (hw : wellFormed st = true) (h : assocGet q st.redis = some r) :
    ∃ e, r.cell = RemoteCell.ok e :=
  wellFormed_cell_list st.redis q r hw h

theorem getLocal_spec {T : Type} [Inhabited T] (now : Int) (st : St T) (key : String) :
    (getLocal now st key).2 = true ↔ specUnexpiredLocal now st key := by
  unfold getLocal specUnexpiredLocal
  cases hl : assocGet key st.items with
  | none => simp
  | some a =>
    by_cases hexp : a.expiresAt < now
    · simp only [if_pos hexp]
      constructor
      · intro hcon
        simp at hcon
      · rintro ⟨e, he, hle⟩
        injection he with he2
        subst he2
        omega
    · simp only [if_neg hexp]
      constructor
      · intro _
        exact ⟨a, rfl, by omega⟩
      · intro _
        trivial

theorem getRedis_spec {T : Type} [Inhabited T] (now : Int) (cfg : Cfg) (st : St T)
    (key : String) (hw : wellFormed st = true) :
    (getRedis now cfg st key).2 = true ↔ specUnexpiredRemote now cfg st key := by
  unfold getRedis specUnexpiredRemote
  cases hc : st.hasClient with
  | false => simp
  | true =>
    simp only [Bool.true_eq_false, if_false, true_and]
    cases hr : assocGet (redisKey cfg key) st.redis with
    | none => simp
    | some r =>
      obtain ⟨e, he⟩ := wellFormed_cell st (redisKey cfg key) r hw hr
      dsimp only
      rw [he]
      by_cases hexp : e.expiresAt < now
      · simp only [if_pos hexp]
        constructor
        · intro hcon
          simp at hcon
        · rintro ⟨r2, hr2, e2, he2, hle⟩
          injection hr2 with hr3
          subst hr3
          rw [he] at he2
          injection he2 with he3
          subst he3
          omega
      · simp only [if_neg hexp]
        constructor
        · intro _
          exact ⟨r, rfl, e, he, by omega⟩
        · intro _
          trivial

theorem check_ok_iff {T : Type} [Inhabited T] (now : Int) (cfg : Cfg) (st : St T)
    (key : String) :
    (check now cfg st key).1.2 = true ↔
      ((getLocal now st key).2 = true ∨ (getRedis now cfg st key).2 = true) := by
  unfold check
  dsimp only
  split
  · simp_all
  · split <;> simp_all

/-- C2 amended: on states whose redis records all decode cleanly (the
only records the cache itself writes), Check returns true exactly when
an entry with expires_at not in the past exists in the local or the
remote tier; on a state with an undecodable remote record the
equivalence can fail (the decode slip of C6).  Check performs no loader
invocation in any state. -/
theorem Check_iff_unexpired {T : Type} [Inhabited T] (now : Int) (cfg : Cfg) (st : St T)
    (key : String) :
    (wellFormed st = true →
      ((Check now cfg st key).1.2 = true ↔
        (specUnexpiredLocal now st key ∨ specUnexpiredRemote now cfg st key))) ∧
    (Check now cfg st key).2.2 = [] := by
  refine ⟨fun hw => ?_, rfl⟩
  have h1 := check_ok_iff now cfg st key
  have h2 := getLocal_spec now st key
  have h3 := getRedis_spec now cfg st key hw
  unfold Check
  dsimp only
  rw [h1, h2, h3]

/-- Instance state holding one fresh local entry and one stale redis
record. -/
def stC2 : St Nat :=
  { items := [("k", { value := 7, expiresAt := 100, recheckAt := 50 })],
    redis := [("ecache:test:q", { cell := .ok { value := 3, expiresAt := 4, recheckAt := 2 },
                                  ttl := 9 })],
    hasClient := true }

/-- C2 witness: the equivalence evaluated on a concrete state, for a key
served by the local tier and for a key whose only redis record has
expired. -/
theorem Check_iff_unexpired_witness :
    (((Check 10 cfgT stC2 "k").1.2 = true ↔
        (specUnexpiredLocal 10 stC2 "k" ∨ specUnexpiredRemote 10 cfgT stC2 "k")) ∧
      (Check 10 cfgT stC2 "k").2.2 = []) ∧
    (((Check 10 cfgT stC2 "q").1.2 = true ↔
        (specUnexpiredLocal 10 stC2 "q" ∨ specUnexpiredRemote 10 cfgT stC2 "q")) ∧
      (Check 10 cfgT stC2 "q").2.2 = []) :=
  ⟨⟨(Check_iff_unexpired 10 cfgT stC2 "k").1 (by decide),
    (Check_iff_unexpired 10 cfgT stC2 "k").2⟩,
   ⟨(Check_iff_unexpired 10 cfgT stC2 "q").1 (by decide),
    (Check_iff_unexpired 10 cfgT stC2 "q").2⟩⟩

/-- C3: evaluation of the fingerprint at the failing input.  The
constructor assigns the literal "test" to topic and never reads its
namespace argument, so two instances built with the distinct namespaces
"alpha" and "beta" produce the same fingerprint for the key "k"; the
fixed literal in front is "ecache". -/
theorem redisKey_ignores_namespace_argument :
    (NewRefreshCache "alpha").topic = "test" ∧
    (NewRefreshCache "beta").topic = "test" ∧
    redisKey (NewRefreshCache "alpha") "k" = "ecache:test:k" ∧
    redisKey (NewRefreshCache "alpha") "k" = redisKey (NewRefreshCache "beta") "k" ∧
    ("alpha" : String) ≠ "beta" := by
  refine ⟨rfl, rfl, rfl, rfl, by decide⟩

/-- State whose remote tier holds an expired entry with a non-zero
payload. -/
def stC4 : St Nat :=
  { items := [],
    redis := [("ecache:test:k",
      { cell := .ok { value := 5, expiresAt := 10, recheckAt := 0 }, ttl := 9 })],
    hasClient := true }

/-- C4 counterexample: at time 20 both tiers miss (the only remote
record is expired), the refresh fails, and Get returns the stale decoded
payload 5 with false, not the zero value 0. -/
theorem Get_miss_failure_returns_stale_value :
    (Get 20 cfgT stC4 "k" (.done 99 (some "fail"))).1 = (5, false) ∧ (5 : Nat) ≠ 0 := by
  refine ⟨?_, by decide⟩
  rfl

/-- The recompute outcome carries an error (a timeout or an error
returned by the function). -/
def fnFails {T : Type} : FnOutcome T → Bool
  | .timeout => true
  | .done _ (some _) => true
  | .done _ none => false

/-- C4 amended: whenever Get misses locally (no row, or only an expired
tombstone row) and the refresh fails, it returns false and exposes no
error cause; the paired value is the zero value whenever the remote tier
holds no record for the key, and is the stale decoded value when the
remote tier held an expired record. -/
theorem Get_missing_record_failure_zero {T : Type} [Inhabited T] (now : Int) (cfg : Cfg)
    (st : St T) (key : String) (fn : FnOutcome T)
    (h1 : (getLocal now st key).2 = false)
    (h3 : fnFails fn = true) :
    (assocGet (redisKey cfg key) st.redis = none →
      (Get now cfg st key fn).1 = ((default : T), false)) ∧
    (∀ (e : Item T) (t : Int), st.hasClient = true →
      assocGet (redisKey cfg key) st.redis = some { cell := .ok e, ttl := t } →
      e.expiresAt < now → (Get now cfg st key fn).1 = (e.value, false)) := by
  have hget : ∀ w : T, check now cfg st key = ((w, false), st) →
      (Get now cfg st key fn).1 = (w, false) := by
    intro w hck
    cases fn with
    | timeout => simp [Get, hck, refresh]
    | done v e2 =>
      cases e2 with
      | none => simp [fnFails] at h3
      | some msg => simp [Get, hck, refresh]
  constructor
  · intro h2
    refine hget default ?_
    have hrd : getRedis now cfg st key = (zeroItem T, false) := by
      unfold getRedis
      cases hc : st.hasClient <;> simp [h2, hc]
    unfold check
    simp [h1, hrd, zeroItem]
  · intro e t hc h2 hexp
    refine hget e.value ?_
    have hrd : getRedis now cfg st key = (e, false) := by
      unfold getRedis
      simp [h2, hc, hexp]
    unfold check
    simp [h1, hrd]

/-- State with an expired local tombstone row for "k" and no remote
record. -/
def stC4b : St Nat :=
  { items := [("k", { value := 9, expiresAt := 5, recheckAt := 0 })],
    redis := [],
    hasClient := true }

/-- C4 witness: the amended statement evaluated once on a local
tombstone state with an empty remote tier (zero value returned) and once
on the expired-remote-record state (stale value 5 returned). -/
theorem Get_missing_record_failure_zero_witness :
    (Get 10 cfgT stC4b "k" FnOutcome.timeout).1 = ((default : Nat), false) ∧
    (Get 20 cfgT stC4 "k" (.done 99 (some "fail"))).1 = (5, false) := by
  have hA := Get_missing_record_failure_zero (T := Nat) 10 cfgT stC4b "k"
    FnOutcome.timeout (by decide) rfl
  have hB := Get_missing_record_failure_zero (T := Nat) 20 cfgT stC4 "k"
    (.done 99 (some "fail")) (by decide) rfl
  refine ⟨hA.1 rfl, ?_⟩
  exact hB.2 { value := 5, expiresAt := 10, recheckAt := 0 } 9 rfl rfl (by decide)

/-- State whose remote tier holds a record that fails to unmarshal after
its ExpiresAt field has already been parsed to the future instant
100. -/
def stC6 : St Nat :=
  { items := [],
    redis := [("ecache:test:k",
      { cell := .failDec { value? := none, expiresAt? := some 100, recheckAt? := none },
        ttl := 9 })],
    hasClient := true }

/-- C6: evaluation of getRedis at the failing input.  The source logs
the unmarshal error but does not return, so the item prefilled with the
clock and the partially parsed future ExpiresAt is reported as a hit
(true), not as absent. -/
theorem getRedis_decode_failure_hit :
    getRedis 0 cfgT stC6 "k" = ({ value := 0, expiresAt := 100, recheckAt := 0 }, true) := by
  rfl

/-- C2 counterexample: at time 0, on the state whose only remote record
fails to decode (ExpiresAt parsed to 100 before the failure), Check
reports a hit although no entry with expires_at not in the past exists
in the local tier or in the remote tier, so the hit-iff-unexpired-entry
equivalence is false on this state. -/
theorem Check_hit_without_entry_on_decode_failure :
    (Check 0 cfgT stC6 "k").1.2 = true ∧
    ¬ specUnexpiredLocal 0 stC6 "k" ∧
    ¬ specUnexpiredRemote 0 cfgT stC6 "k" := by
  refine ⟨rfl, ?_, ?_⟩
  · rintro ⟨e, he, hle⟩
    have hnone : assocGet "k" stC6.items = (none : Option (Item Nat)) := rfl
    rw [hnone] at he
    exact Option.noConfusion he
  · rintro ⟨hc, r, hr, e, he, hle⟩
    have hsome : assocGet (redisKey cfgT "k") stC6.redis =
        some ({ cell := .failDec { value? := none, expiresAt? := some 100, recheckAt? := none },
                ttl := 9 } : RedisRec Nat) := rfl
    rw [hsome] at hr
    injection hr with hr2
    subst hr2
    exact RemoteCell.noConfusion he

/-- C8 counterexample: Start with a period of zero does not return
normally; the source's first statement, time.NewTicker(0), panics. -/
theorem Start_zero_panics :
    Start 0 = StartRes.panicked ∧ ¬ ∃ p, Start 0 = StartRes.running p := by
  refine ⟨rfl, ?_⟩
  rintro ⟨p, h⟩
  simp [Start] at h

/-- C8 amended: Start panics exactly on non-positive periods and
schedules the refresher loop at the given cadence exactly on positive
ones. -/
theorem Start_panics_iff_nonpos (t : Int) :
    (Start t = StartRes.panicked ↔ t ≤ 0) ∧ (Start t = StartRes.running t ↔ 0 < t) := by
  by_cases h : t ≤ 0 <;> simp [Start, h] <;> omega

/-- C7: when the local tier misses and the remote tier returns a
present, unexpired entry b, the read path stores exactly b into the
local tier via setLocal and returns its value with true; this is the
behavior of Check and of the hit branch of Get (which then performs no
loader invocation for any recompute oracle). -/
theorem check_remote_warms_local {T : Type} [Inhabited T] (now : Int) (cfg : Cfg) (st : St T)
    (key : String) (b : Item T)
    (hl : (getLocal now st key).2 = false)
    (hr : getRedis now cfg st key = (b, true)) :
    (check now cfg st key).1 = (b.value, true) ∧
    (check now cfg st key).2 = setLocal st key b ∧
    assocGet key (check now cfg st key).2.items = some b ∧
    (Check now cfg st key).1 = (b.value, true) ∧
    (Check now cfg st key).2.2 = [] ∧
    ∀ fn, Get now cfg st key fn = ((b.value, true), setLocal st key b, []) := by
  have hck : check now cfg st key = ((b.value, true), setLocal st key b) := by
    unfold check
    simp [hl, hr]
  refine ⟨by rw [hck], by rw [hck], ?_, ?_, rfl, ?_⟩
  · rw [hck]
    exact assocGet_assocSet_self key b st.items
  · unfold Check
    rw [hck]
  · intro fn
    unfold Get
    simp [hck]

/-- State whose local row for "k" has expired while the remote tier
holds a fresh entry. -/
def stC7 : St Nat :=
  { items := [("k", { value := 9, expiresAt := 5, recheckAt := 0 })],
    redis := [("ecache:test:k",
      { cell := .ok { value := 3, expiresAt := 100, recheckAt := 50 }, ttl := 9 })],
    hasClient := true }

/-- C7 witness: the warm path evaluated at time 10, where the local row
is expired and the remote entry is fresh. -/
theorem check_remote_warms_local_witness :
    (check 10 cfgT stC7 "k").1 = (3, true) ∧
    assocGet "k" (check 10 cfgT stC7 "k").2.items =
      some { value := 3, expiresAt := 100, recheckAt := 50 } ∧
    (Check 10 cfgT stC7 "k").1 = (3, true) ∧
    (Check 10 cfgT stC7 "k").2.2 = [] ∧
    Get 10 cfgT stC7 "k" FnOutcome.timeout =
      ((3, true), setLocal stC7 "k" { value := 3, expiresAt := 100, recheckAt := 50 }, []) := by
  have h := check_remote_warms_local 10 cfgT stC7 "k"
    { value := 3, expiresAt := 100, recheckAt := 50 } (by decide) (by decide)
  exact ⟨h.1, h.2.2.1, h.2.2.2.1, h.2.2.2.2.1, h.2.2.2.2.2 FnOutcome.timeout⟩

/-- C9: single-flight per instance.  The instance mutex is held for the
whole of Get, loader included, so concurrent Get calls execute as a
sequence of whole operations; this theorem states the sequential
consequence: from a state with no usable entry, the first Get invokes
the loader exactly once (one event) and publishes the value, and every
subsequent Get on the same key before the published entry expires
invokes the loader zero times, whatever its recompute oracle would
return. -/
theorem Get_single_flight {T : Type} [Inhabited T] (now1 now2 : Int) (cfg : Cfg) (st : St T)
    (key : String) (v : T)
    (hmiss : (check now1 cfg st key).1.2 = false)
    (hfresh : ¬ now1 + cfg.expires < now2) :
    (Get now1 cfg st key (.done v none)).2.2 = [key] ∧
    (Get now1 cfg st key (.done v none)).1 = (v, true) ∧
    ∀ fn2, (Get now2 cfg (Get now1 cfg st key (.done v none)).2.1 key fn2).2.2 = [] ∧
           (Get now2 cfg (Get now1 cfg st key (.done v none)).2.1 key fn2).1 = (v, true) := by
  have hst := check_miss_state now1 cfg st key hmiss
  have hget : Get now1 cfg st key (.done v none) =
      ((v, true), setTTL now1 cfg st key v cfg.recheck cfg.expires, [key]) := by
    unfold Get
    simp [hmiss, hst, refresh]
  refine ⟨by rw [hget], by rw [hget], ?_⟩
  intro fn2
  rw [hget]
  have hloc : assocGet key (setTTL now1 cfg st key v cfg.recheck cfg.expires).items =
      some { value := v, expiresAt := now1 + cfg.expires, recheckAt := now1 + cfg.recheck } := by
    unfold setTTL setRedis setLocal
    dsimp only
    split <;> exact assocGet_assocSet_self key _ st.items
  have hck2 : check now2 cfg (setTTL now1 cfg st key v cfg.recheck cfg.expires) key =
      ((v, true), setTTL now1 cfg st key v cfg.recheck cfg.expires) := by
    unfold check getLocal
    simp [hloc, hfresh]
  constructor
  · unfold Get
    simp [hck2]
  · unfold Get
    simp [hck2]

/-- C9 witness: two sequential Gets on the empty state, the first with a
successful recompute, the second with an oracle that would time out; the
loader event list is ["k"] then []. -/
theorem Get_single_flight_witness :
    (Get 0 cfgT stEmptyR "k" (.done 7 none)).2.2 = ["k"] ∧
    (Get 0 cfgT stEmptyR "k" (.done 7 none)).1 = (7, true) ∧
    (Get 10 cfgT (Get 0 cfgT stEmptyR "k" (.done 7 none)).2.1 "k" FnOutcome.timeout).2.2 = [] ∧
    (Get 10 cfgT (Get 0 cfgT stEmptyR "k" (.done 7 none)).2.1 "k" FnOutcome.timeout).1 =
      (7, true) := by
  have h := Get_single_flight (T := Nat) 0 10 cfgT stEmptyR "k" 7 (by decide) (by decide)
  exact ⟨h.1, h.2.1, (h.2.2 FnOutcome.timeout).1, (h.2.2 FnOutcome.timeout).2⟩

/-- Every key collected by the refresher scan is a key of the scanned
map. -/
theorem grkAux_ret_sub {T : Type} [Inhabited T] (now : Int) (cfg : Cfg) (stR : St T)
    (l : List (String × Item T)) :
    ∀ q, q ∈ (grkAux now cfg stR l).1 → q ∈ l.map Prod.fst := by
  induction l with
  | nil => intro q hq; simp [grkAux] at hq
  | cons hd tl ih =>
    obtain ⟨k, v⟩ := hd
    intro q hq
    unfold grkAux at hq
    dsimp only at hq
    split at hq
    · exact List.mem_cons_of_mem k (ih q hq)
    · rcases hg : getRedis now cfg stR k with ⟨a, aok⟩
      rw [hg] at hq
      cases aok with
      | true =>
        dsimp only at hq
        split at hq
        · exact List.mem_cons_of_mem k (ih q hq)
        · rcases List.mem_cons.mp hq with h | h
          · simp [h]
          · exact List.mem_cons_of_mem k (ih q h)
      | false =>
        rcases List.mem_cons.mp hq with h | h
        · simp [h]
        · exact List.mem_cons_of_mem k (ih q h)

/-- Behavior of the refresher scan at one due key, over the scanned
list: a due key whose redis read is a hit has the redis entry adopted,
and is collected exactly when the adopted entry is still due. -/
theorem grkAux_lookup {T : Type} [Inhabited T] (now : Int) (cfg : Cfg) (stR : St T)
    (l : List (String × Item T)) (key : String) (v a : Item T)
    (hnd : (l.map Prod.fst).Nodup)
    (hv : assocGet key l = some v)
    (hdue : v.recheckAt ≤ now)
    (hred : getRedis now cfg stR key = (a, true)) :
    assocGet key (grkAux now cfg stR l).2 = some a ∧
    (key ∈ (grkAux now cfg stR l).1 ↔ a.recheckAt ≤ now) := by
  induction l with
  | nil => simp [assocGet] at hv
  | cons hd tl ih =>
    obtain ⟨k, w⟩ := hd
    rw [List.map_cons, List.nodup_cons] at hnd
    by_cases hk : k = key
    · subst hk
      simp only [assocGet, if_pos rfl] at hv
      cases hv
      unfold grkAux
      dsimp only
      rw [if_neg (by omega), hred]
      dsimp only
      by_cases hfresh : now < a.recheckAt
      · rw [if_pos hfresh]
        refine ⟨by simp [assocGet], ?_⟩
        constructor
        · intro hmem
          exact absurd (grkAux_ret_sub now cfg stR tl k hmem) hnd.1
        · omega
      · rw [if_neg hfresh]
        exact ⟨by simp [assocGet], by simp; omega⟩
    · have hv2 : assocGet key tl = some v := by
        simpa [assocGet, hk] using hv
      have ihh := ih hnd.2 hv2
      unfold grkAux
      dsimp only
      split
      · exact ⟨by simpa [assocGet, hk] using ihh.1, by
          rw [← ihh.2]⟩
      · rcases hg : getRedis now cfg stR k with ⟨b, bok⟩
        cases bok with
        | true =>
          dsimp only
          split
          · exact ⟨by simpa [assocGet, hk] using ihh.1, by rw [← ihh.2]⟩
          · refine ⟨by simpa [assocGet, hk] using ihh.1, ?_⟩
            rw [← ihh.2]
            have hk2 : key ≠ k := fun h => hk h.symm
            simp [hk2]
        | false =>
          refine ⟨by simpa [assocGet, hk] using ihh.1, ?_⟩
          rw [← ihh.2]
          have hk2 : key ≠ k := fun h => hk h.symm
          simp [hk2]

/-- C5: on a refresher tick with snapshot time now, a registered key
whose stored recheck_at is at or before now has the remote tier
consulted first; a present, unexpired remote entry replaces the local
entry, and the key is dispatched for refresh this tick exactly when the
adopted entry's recheck_at is still at or before now. -/
theorem recheck_adopts_remote {T : Type} [Inhabited T] (now : Int) (cfg : Cfg) (st : St T)
    (key : String) (v a : Item T)
    (hnd : (st.items.map Prod.fst).Nodup)
    (hv : assocGet key st.items = some v)
    (hdue : v.recheckAt ≤ now)
    (hred : getRedis now cfg st key = (a, true)) :
    assocGet key (GetRecheckKeys now cfg st).2.items = some a ∧
    (key ∈ (GetRecheckKeys now cfg st).1 ↔ a.recheckAt ≤ now) := by
  have h := grkAux_lookup now cfg st st.items key v a hnd hv hdue hred
  exact ⟨h.1, h.2⟩

/-- State with one due local row for "k" and a fresher unexpired remote
entry whose recheck instant has not yet passed. -/
def stC5 : St Nat :=
  { items := [("k", { value := 1, expiresAt := 100, recheckAt := 0 })],
    redis := [("ecache:test:k",
      { cell := .ok { value := 2, expiresAt := 200, recheckAt := 150 }, ttl := 9 })],
    hasClient := true }

/-- C5 witness: at snapshot time 50 the local row is due, the peer's
remote entry is adopted, and the key is skipped this tick because the
adopted recheck_at 150 is still in the future. -/
theorem recheck_adopts_remote_witness :
    assocGet "k" (GetRecheckKeys 50 cfgT stC5).2.items =
      some { value := 2, expiresAt := 200, recheckAt := 150 } ∧
    ("k" ∈ (GetRecheckKeys 50 cfgT stC5).1 ↔ (150 : Int) ≤ 50) := by
  have h := recheck_adopts_remote 50 cfgT stC5 "k"
    { value := 1, expiresAt := 100, recheckAt := 0 }
    { value := 2, expiresAt := 200, recheckAt := 150 }
    (by decide) (by decide) (by decide) (by decide)
  exact ⟨h.1, h.2⟩

/-- The item map of the state produced by setTTL is the old map with
the key replaced, whether or not a redis client exists. -/
theorem setTTL_items {T : Type} (now : Int) (cfg : Cfg) (st : St T) (key : String) (v : T)
    (t1 t2 : Int) :
    (setTTL now cfg st key v t1 t2).items =
      assocSet key { value := v, expiresAt := now + t2, recheckAt := now + t1 } st.items := by
  unfold setTTL setRedis setLocal
  dsimp only
  split <;> rfl

theorem check_items_pres {T : Type} [Inhabited T] (now : Int) (cfg : Cfg) (st : St T)
    (key q : String) (h : (assocGet q st.items).isSome = true) :
    (assocGet q (check now cfg st key).2.items).isSome = true := by
  unfold check
  dsimp only
  split
  · exact h
  · split
    · simpa [setLocal] using assocGet_isSome_assocSet q key _ st.items h
    · exact h

theorem refresh_items_pres {T : Type} [Inhabited T] (now : Int) (cfg : Cfg) (st : St T)
    (key : String) (fn : FnOutcome T) (q : String)
    (h : (assocGet q st.items).isSome = true) :
    (assocGet q (refresh now cfg st key fn).2.1.items).isSome = true := by
  cases fn with
  | timeout => exact h
  | done v e =>
    cases e with
    | none =>
      simp only [refresh, setTTL_items]
      exact assocGet_isSome_assocSet q key _ st.items h
    | some msg => exact h

theorem Get_items_pres {T : Type} [Inhabited T] (now : Int) (cfg : Cfg) (st : St T)
    (key : String) (fn : FnOutcome T) (q : String)
    (h : (assocGet q st.items).isSome = true) :
    (assocGet q (Get now cfg st key fn).2.1.items).isSome = true := by
  unfold Get
  dsimp only
  split
  · exact check_items_pres now cfg st key q h
  · have h2 := check_items_pres now cfg st key q h
    have h3 := refresh_items_pres now cfg (check now cfg st key).2 key fn q h2
    split <;> exact h3

theorem grkAux_items_isSome {T : Type} [Inhabited T] (now : Int) (cfg : Cfg) (stR : St T)
    (l : List (String × Item T)) (q : String) :
    (assocGet q (grkAux now cfg stR l).2).isSome = (assocGet q l).isSome := by
  induction l with
  | nil => rfl
  | cons hd tl ih =>
    obtain ⟨k, w⟩ := hd
    unfold grkAux
    dsimp only
    split
    · by_cases hkq : k = q <;> simp [assocGet, hkq, ih]
    · rcases hg : getRedis now cfg stR k with ⟨b, bok⟩
      cases bok with
      | true =>
        dsimp only
        split <;> (by_cases hkq : k = q <;> simp [assocGet, hkq, ih])
      | false =>
        by_cases hkq : k = q <;> simp [assocGet, hkq, ih]

theorem grkAux_partition {T : Type} [Inhabited T] (now : Int) (cfg : Cfg) (stR : St T)
    (l : List (String × Item T)) :
    ∀ k v, (k, v) ∈ l → ∃ v2, (k, v2) ∈ (grkAux now cfg stR l).2 ∧
      (k ∈ (grkAux now cfg stR l).1 ∨ now < v2.recheckAt) := by
  induction l with
  | nil =>
    intro k v h
    simp at h
  | cons hd tl ih =>
    obtain ⟨k0, v0⟩ := hd
    intro k v hmem
    unfold grkAux
    dsimp only
    rcases List.mem_cons.mp hmem with heq | htl
    · rw [Prod.mk.injEq] at heq
      obtain ⟨rfl, rfl⟩ := heq
      by_cases hf : now < v.recheckAt
      · rw [if_pos hf]
        exact ⟨v, List.mem_cons_self _ _, Or.inr hf⟩
      · rw [if_neg hf]
        rcases hg : getRedis now cfg stR k with ⟨b, bok⟩
        cases bok with
        | true =>
          dsimp only
          by_cases hf2 : now < b.recheckAt
          · rw [if_pos hf2]
            exact ⟨b, List.mem_cons_self _ _, Or.inr hf2⟩
          · rw [if_neg hf2]
            exact ⟨b, List.mem_cons_self _ _, Or.inl (List.mem_cons_self _ _)⟩
        | false =>
          exact ⟨v, List.mem_cons_self _ _, Or.inl (List.mem_cons_self _ _)⟩
    · obtain ⟨v2, hm2, hor⟩ := ih k v htl
      by_cases hf : now < v0.recheckAt
      · rw [if_pos hf]
        exact ⟨v2, List.mem_cons_of_mem _ hm2, hor⟩
      · rw [if_neg hf]
        rcases hg : getRedis now cfg stR k0 with ⟨b, bok⟩
        cases bok with
        | true =>
          dsimp only
          by_cases hf2 : now < b.recheckAt
          · rw [if_pos hf2]
            exact ⟨v2, List.mem_cons_of_mem _ hm2, hor⟩
          · rw [if_neg hf2]
            exact ⟨v2, List.mem_cons_of_mem _ hm2, hor.imp_left (List.mem_cons_of_mem _)⟩
        | false =>
          exact ⟨v2, List.mem_cons_of_mem _ hm2, hor.imp_left (List.mem_cons_of_mem _)⟩

/-- C10: the domain of the in-process item map grows monotonically.  No
operation (Check, Get, Refresh, SetTTL, or the refresher scan) removes a
key: every stored key still maps to some entry afterwards, expired rows
included, until overwritten by a later write; the refresher scan
preserves the domain exactly and examines every stored key, leaving each
one either dispatched for refresh or with a recheck instant still in the
future. -/
theorem items_domain_monotone {T : Type} [Inhabited T] (now : Int) (cfg : Cfg) (st : St T)
    (key : String) (value : T) (t1 t2 : Int) (fn : FnOutcome T) :
    (∀ q, (assocGet q st.items).isSome = true →
        (assocGet q (Check now cfg st key).2.1.items).isSome = true) ∧
    (∀ q, (assocGet q st.items).isSome = true →
        (assocGet q (Get now cfg st key fn).2.1.items).isSome = true) ∧
    (∀ q, (assocGet q st.items).isSome = true →
        (assocGet q (Refresh now cfg st key fn).2.1.items).isSome = true) ∧
    (∀ q, (assocGet q st.items).isSome = true →
        (assocGet q (SetTTL now cfg st key value t1 t2).2.items).isSome = true) ∧
    (∀ q, (assocGet q (GetRecheckKeys now cfg st).2.items).isSome =
        (assocGet q st.items).isSome) ∧
    (∀ k v, (k, v) ∈ st.items →
        ∃ v2, (k, v2) ∈ (GetRecheckKeys now cfg st).2.items ∧
          (k ∈ (GetRecheckKeys now cfg st).1 ∨ now < v2.recheckAt)) := by
  refine ⟨?_, ?_, ?_, ?_, ?_, ?_⟩
  · intro q h
    exact check_items_pres now cfg st key q h
  · intro q h
    exact Get_items_pres now cfg st key fn q h
  · intro q h
    exact refresh_items_pres now cfg st key fn q h
  · intro q h
    simp only [SetTTL, setTTL_items]
    exact assocGet_isSome_assocSet q key _ st.items h
  · intro q
    exact grkAux_items_isSome now cfg st st.items q
  · exact grkAux_partition now cfg st st.items

/-- State with one stored row, used to exercise the monotonicity
conjunctions on a key distinct from the one being operated on. -/
def stC10 : St Nat :=
  { items := [("k", { value := 7, expiresAt := 100, recheckAt := 50 })],
    redis := [],
    hasClient := true }

/-- C10 witness: after each operation on key "j" at time 10, the stored
key "k" is still present; the refresher scan preserves the domain and
leaves "k" either dispatched or fresh. -/
theorem items_domain_monotone_witness :
    (assocGet "k" (Check 10 cfgT stC10 "j").2.1.items).isSome = true ∧
    (assocGet "k" (Get 10 cfgT stC10 "j" (.done 3 none)).2.1.items).isSome = true ∧
    (assocGet "k" (Refresh 10 cfgT stC10 "j" (.done 3 none)).2.1.items).isSome = true ∧
    (assocGet "k" (SetTTL 10 cfgT stC10 "j" 4 1 2).2.items).isSome = true ∧
    (assocGet "k" (GetRecheckKeys 10 cfgT stC10).2.items).isSome =
      (assocGet "k" stC10.items).isSome ∧
    ∃ v2, ("k", v2) ∈ (GetRecheckKeys 10 cfgT stC10).2.items ∧
      ("k" ∈ (GetRecheckKeys 10 cfgT stC10).1 ∨ 10 < v2.recheckAt) := by
  have h := items_domain_monotone (T := Nat) 10 cfgT stC10 "j" 4 1 2 (.done 3 none)
  exact ⟨h.1 "k" (by decide), h.2.1 "k" (by decide), h.2.2.1 "k" (by decide),
    h.2.2.2.1 "k" (by decide), h.2.2.2.2.1 "k",
    h.2.2.2.2.2 "k" { value := 7, expiresAt := 100, recheckAt := 50 } (by decide)⟩

end RCache
